import Mathlib

/-!
Shallow embedding of the OpenFOAMPost post-processing tool: the library
functions of `ofpost/lib.py` (path scanning, output-path resolution, unit
lookup, label parsing, camera-orientation inference, force/moment
aggregation), the driver loop of `ofpost/__main__.py`, and the file reader
of `live_residuals.py`.  Pure string manipulation is modelled on
`List Char`; numeric table entries are modelled as rationals.
-/

/-- Strip leading and trailing whitespace (model of Python `str.strip`). -/
def trimWs (s : String) : String :=
  String.mk (((s.toList.dropWhile Char.isWhitespace).reverse.dropWhile
    Char.isWhitespace).reverse)

/-- Remove every occurrence of one character
(model of Python `str.replace(c, '')`). -/
def removeChar (s : String) (c : Char) : String :=
  String.mk (s.toList.filter (fun x => x ≠ c))

/-- Lower-case every character (model of Python `str.lower`). -/
def lowerStr (s : String) : String := String.mk (s.toList.map Char.toLower)

/-- Split on whitespace runs, discarding empty fields
(model of Python `str.split()` with no argument). -/
def splitWsAux : List Char → List Char → List (List Char)
  | [], cur => if cur = [] then [] else [cur.reverse]
  | c :: cs, cur =>
    if c.isWhitespace then
      if cur = [] then splitWsAux cs [] else cur.reverse :: splitWsAux cs []
    else splitWsAux cs (c :: cur)

/-- Python `str.split()`. -/
def pySplit (s : String) : List String := (splitWsAux s.toList []).map String.mk

/-- Split on a single separator character, keeping empty fields
(model of Python `str.split(sep)` for a one-character separator). -/
def splitCharAux (c : Char) : List Char → List Char → List String
  | [], cur => [String.mk cur.reverse]
  | x :: xs, cur =>
    if x = c then String.mk cur.reverse :: splitCharAux c xs []
    else splitCharAux c xs (x :: cur)

/-- Python `str.split(sep)`. -/
def splitChar (c : Char) (s : String) : List String := splitCharAux c s.toList []

/-- Whether a string starts with the given character. -/
def startsWithChar (s : String) (c : Char) : Bool :=
  match s.toList with
  | [] => false
  | x :: _ => x = c

/-- Consume a digit group of a Python float literal: digits possibly
separated by single underscores, each underscore sitting between two
digits.  Returns the value read so far, the number of digits read and the
unconsumed rest. -/
def digitsAux : List Char → ℕ → ℕ → ℕ × ℕ × List Char
  | [], v, n => (v, n, [])
  | c :: cs, v, n =>
    if c.isDigit then digitsAux cs (10 * v + (c.toNat - 48)) (n + 1)
    else if c = '_' ∧ n ≠ 0 then
      match cs with
      | d :: cs' =>
        if d.isDigit then digitsAux cs' (10 * v + (d.toNat - 48)) (n + 1)
        else (v, n, c :: cs)
      | [] => (v, n, c :: cs)
    else (v, n, c :: cs)

/-- A digit group must contain at least one digit. -/
def parseDigits (cs : List Char) : Option (ℕ × ℕ × List Char) :=
  let r := digitsAux cs 0 0
  if r.2.1 = 0 then none else some r

/-- Parse the mantissa of a Python float literal (`digits[.digits]`,
`digits.` or `.digits`); returns its rational value and the rest. -/
def parseMantissa (cs : List Char) : Option (ℚ × List Char) :=
  match parseDigits cs with
  | some (ip, _, rest) =>
    match rest with
    | '.' :: rest2 =>
      match parseDigits rest2 with
      | some (fp, m, rest3) => some ((ip : ℚ) + (fp : ℚ) / 10 ^ m, rest3)
      | none => some ((ip : ℚ), rest2)
    | _ => some ((ip : ℚ), rest)
  | none =>
    match cs with
    | '.' :: rest2 =>
      match parseDigits rest2 with
      | some (fp, m, rest3) => some ((fp : ℚ) / 10 ^ m, rest3)
      | none => none
    | _ => none

/-- Parse an optional exponent part `e[+-]digits`; no exponent consumes
nothing. -/
def parseExp : List Char → ℤ × List Char
  | [] => (0, [])
  | c :: rest =>
    if c = 'e' ∨ c = 'E' then
      let sr : ℤ × List Char :=
        match rest with
        | '+' :: r => (1, r)
        | '-' :: r => (-1, r)
        | _ => (1, rest)
      match parseDigits sr.2 with
      | some (v, _, rest3) => (sr.1 * v, rest3)
      | none => (0, c :: rest)
    else (0, c :: rest)

/-- Model of Python `float(s)`: `none` when `float` raises `ValueError`,
`some none` for the non-finite literals `inf`/`infinity`/`nan`,
`some (some q)` for a finite literal of value `q`. -/
def pyFloat (s : String) : Option (Option ℚ) :=
  let t := (trimWs s).toList
  let st : ℚ × List Char :=
    match t with
    | '+' :: r => (1, r)
    | '-' :: r => (-1, r)
    | _ => (1, t)
  let low := String.mk (st.2.map Char.toLower)
  if low = "inf" ∨ low = "infinity" ∨ low = "nan" then some none
  else
    match parseMantissa st.2 with
    | some (m, rest) =>
      let er := parseExp rest
      if er.2 = [] then some (some (st.1 * m * (10 : ℚ) ^ er.1)) else none
    | none => none

/-- Modelled from the spec: the fixed output extension constant
`EXTENSION` is defined in the package options module, which is not among
the sources; the spec's example output paths use `.png`. -/
def EXTENSION : String := ".png"

/-- Strip `/`, `\` and spaces from a file suffix, in the order
`get_output_filepath` performs the three `replace` calls. -/
def sanitize_suffix (s : String) : String :=
  removeChar (removeChar (removeChar s '/') '\\') ' '

/-- Result of `get_output_filepath`: the output directory (as its
component list), the output file name, the input stem, the timestep
string and the output directory name. -/
structure OutputInfo where
  outdirs : List String
  outfilename : String
  filename : String
  timestep : String
  outdirname : String

/-- Model of `get_output_filepath`.  The input path is given by the list
of its parent directory names (root first) and its stem (name without
extension), matching `filepath.parent`, `filepath.parent.parent` and
`filepath.stem` in the source. -/
def get_output_filepath (dirs : List String) (stem : String)
    (filesuffix : String) : OutputInfo :=
  let filename := stem
  let t0 := (dirs.getLast?).getD ""
  let timestep := if (pyFloat t0).isSome then t0 else "0"
  let outdirs := dirs.dropLast
  let outdirname := (outdirs.getLast?).getD ""
  let on1 := if filesuffix ≠ "" then filename ++ "_" ++ sanitize_suffix filesuffix
             else filename
  let on2 := if timestep ≠ "0" then on1 ++ "_" ++ timestep else on1
  { outdirs := outdirs
    outfilename := on2 ++ EXTENSION
    filename := filename
    timestep := timestep
    outdirname := outdirname }

/-- Glob matching for a single path component, as `fnmatch` does inside
`PurePath.match`: `*` matches any substring, `?` any single character;
other characters match literally (the program's patterns use no
character classes). -/
def globMatch : List Char → List Char → Bool
  | [], s => s.isEmpty
  | '*' :: ps, s => (s.tails).any (fun t => globMatch ps t)
  | '?' :: ps, s =>
    match s with
    | [] => false
    | _ :: cs => globMatch ps cs
  | p :: ps, s =>
    match s with
    | [] => false
    | c :: cs => p = c && globMatch ps cs

/-- Case-insensitive `fnmatch` of one pattern component against one path
component (`case_sensitive=False`). -/
def fnmatchCI (pat name : String) : Bool :=
  globMatch (lowerStr pat).toList (lowerStr name).toList

/-- Components of a pattern after `PurePath` normalization, which drops
empty and `.` components (so doubled, leading `./` and trailing slashes
disappear). -/
def patParts (pat : String) : List String :=
  (splitChar '/' pat).filter (fun s => s ≠ "" && s ≠ ".")

/-- Model of `PurePath(name).match(pattern, case_sensitive=False)` for
the single-component relative paths built by `find_files` (which wraps
the bare file name in `Path(file)`): an absolute pattern cannot match a
relative path, a pattern with several components has more components
than the one-component path and matches nothing, and a one-component
pattern is fnmatch-ed against the file name. -/
def pyPathMatch (pat name : String) : Bool :=
  if startsWithChar pat '/' then false
  else
    match patParts pat with
    | [p] => fnmatchCI p name
    | _ => false

/-- Model of `find_files`: the walked tree is the list of
(directory, files in that directory) pairs produced by `path.walk`, and
the generator's output is the list of (directory, file name) pairs it
yields. -/
def find_files (pattern : String) (fs : List (String × List String))
    (exceptions : List String) : List (String × String) :=
  fs.flatMap (fun rf =>
    rf.2.filterMap (fun f =>
      if pyPathMatch pattern f && !(exceptions.any (fun exc => pyPathMatch exc f))
      then some (rf.1, f) else none))

/-- Collect characters up to the first `)` ahead, failing at a newline or
at end of input (the regex `.` does not cross lines). -/
def parenGroupAux : List Char → Option (List Char)
  | [] => none
  | c :: cs =>
    if c = ')' then some []
    else if c = '\n' then none
    else (parenGroupAux cs).map (fun g => c :: g)

/-- First parenthesized group of a string, as found by
`re.search(r'\((.*?)\)', s)`: the leftmost `(` from which a `)` is
reachable on the same line, with the shortest group. -/
def findParenGroup : List Char → Option (List Char)
  | [] => none
  | c :: cs =>
    if c = '(' then
      match parenGroupAux cs with
      | some g => some g
      | none => findParenGroup cs
    else findParenGroup cs

/-- Strip the first vector-component suffix that matches, as the
`endswith`/`removesuffix`/`break` loop of `get_units` does. -/
def stripComponent (comps : List String) (name : String) : String :=
  match comps.find? (fun cmp => cmp.toList.isSuffixOf name.toList) with
  | some cmp => String.mk (name.toList.take (name.toList.length - cmp.toList.length))
  | none => name

/-- The output format of a successful unit lookup. -/
def bracketUnit (u : String) : String := " [" ++ u ++ "]"

/-- Model of `get_units`.  The static table `UNITS_OF_MEASURE` and the
component-suffix list `COMPONENTS_EXT` are constants of the options
module outside the sources, so they are parameters here; the dictionary
is an association list queried with `List.lookup`. -/
def get_units (UNITS : List (String × String)) (COMPS : List String)
    (array_name : String) : String :=
  match UNITS.lookup array_name with
  | some u => bracketUnit u
  | none =>
    let name1 :=
      match findParenGroup array_name.toList with
      | some g => String.mk g
      | none => array_name
    match UNITS.lookup name1 with
    | some u => bracketUnit u
    | none =>
      let name2 := stripComponent COMPS name1
      match UNITS.lookup name2 with
      | some u => bracketUnit u
      | none => ""

/-- The last leading comment line: iterate over the lines, remembering
the most recent one, and stop at the first line that is empty or does
not start with `#` (the `for`/`break` loop of `read_labels`).  `none`
when no comment line was seen, in which case the Python variable is
unbound and the bare `except` returns the empty list. -/
def lastCommentLineAux : Option String → List String → Option String
  | acc, [] => acc
  | acc, l :: ls =>
    if startsWithChar l '#' then lastCommentLineAux (some l) ls else acc

/-- See `lastCommentLineAux`. -/
def lastCommentLine (lines : List String) : Option String :=
  lastCommentLineAux none lines

/-- Whether `re.match(r'\[.*\]', label)` succeeds: the token starts with
`[` and a `]` occurs somewhere after it (`re.match` anchors only the
start, and split tokens contain no newline). -/
def isUnitToken (t : String) : Bool :=
  match t.toList with
  | '[' :: rest => rest.contains ']'
  | _ => false

/-- The token list of a label line: strip, remove one leading `#`,
whitespace-split. -/
def labelTokens (l : String) : List String :=
  let s := trimWs l
  pySplit (if startsWithChar s '#' then String.mk s.toList.tail else s)

/-- The label-merging loop of `read_labels`, with the accumulator kept
reversed so that the Python `labels[-1]` is the head.  A unit token with
no preceding label raises `IndexError`, modelled as `Except.error ()`. -/
def mergeUnitsRev : List String → List String → Except Unit (List String)
  | acc, [] => Except.ok acc.reverse
  | acc, t :: ts =>
    if isUnitToken t then
      match acc with
      | [] => Except.error ()
      | a :: as => mergeUnitsRev ((a ++ " " ++ t) :: as) ts
    else mergeUnitsRev (t :: acc) ts

/-- Model of `read_labels`, over the file's lines. -/
def read_labels (lines : List String) : Except Unit (List String) :=
  match lastCommentLine lines with
  | none => Except.ok []
  | some l => mergeUnitsRev [] (labelTokens l)

/-- `l` contains `s` as a contiguous segment. -/
def containsSeg (s l : List Char) : Prop := ∃ p q, l = p ++ s ++ q

/-- No character of the token is whitespace. -/
def noWs (t : String) : Prop := ∀ c ∈ t.toList, c.isWhitespace = false

/-- A label is `good` when it is not itself a unit token or contains a
space (merged labels always contain the separating space). -/
def goodLabel (a : String) : Prop := isUnitToken a = false ∨ ' ' ∈ a.toList

/-- `np.abs` on one rational. -/
def pyAbs (q : ℚ) : ℚ := if q < 0 then -q else q

/-- Per-axis extents `np.abs(bounds[1::2] - bounds[0:-1:2])` of the mesh
bounding box. -/
def delta_bounds (bounds : Fin 6 → ℚ) : Fin 3 → ℚ :=
  fun i => pyAbs (bounds ⟨2 * i.val + 1, by have := i.isLt; omega⟩ -
            bounds ⟨2 * i.val, by have := i.isLt; omega⟩)

/-- The zero-thickness threshold `1e-16` of `adjust_camera`. -/
def THRESHOLD : ℚ := 1 / 10 ^ 16

/-- `np.where(delta_bounds < 1e-16)`: the candidate slice-normal axes. -/
def normal_indices (bounds : Fin 6 → ℚ) : List (Fin 3) :=
  (List.finRange 3).filter (fun i => decide (delta_bounds bounds i < THRESHOLD))

/-- The extents with the normal axis masked to `np.inf`. -/
def masked_delta (bounds : Fin 6 → ℚ) (n : Fin 3) : Fin 3 → WithTop ℚ :=
  fun i => if i = n then ⊤ else ((delta_bounds bounds i : ℚ) : WithTop ℚ)

/-- `min_indices[-1]`: the last index attaining the masked minimum
extent (the `getD` default is never used: some index always attains the
minimum). -/
def view_up_index (bounds : Fin 6 → ℚ) (n : Fin 3) : Fin 3 :=
  let db := masked_delta bounds n
  let m := min (db 0) (min (db 1) (db 2))
  ((((List.finRange 3).filter (fun i => decide (db i = m))).getLast?).getD n)

/-- The camera triple `plotter.camera_position`. -/
structure Camera where
  position : Fin 3 → ℚ
  focal_point : Fin 3 → ℚ
  view_up : Fin 3 → ℚ

/-- The body of `adjust_camera` after the normal-axis search, matching
on the list of zero-thickness axes. -/
def adjust_camera_of (bounds : Fin 6 → ℚ) (center : Fin 3 → ℚ) :
    List (Fin 3) → Option Camera
  | [n] =>
    let j := view_up_index bounds n
    some { position := fun i => center i + (if i = n then 1 else 0)
           focal_point := center
           view_up := fun i => if i = j then (if j = 2 then -1 else 1) else 0 }
  | _ => none

/-- Model of `adjust_camera`: `none` is the plain `reset_camera`
fallback, `some` carries the composed camera position, focal point and
view-up vector. -/
def adjust_camera (bounds : Fin 6 → ℚ) (center : Fin 3 → ℚ) : Option Camera :=
  adjust_camera_of bounds center (normal_indices bounds)

/-- `re.search(r'forces\((.*?)\)', content)`: scan left to right for a
literal `forces(` from which a `)` is reachable on the same line, and
return the shortest group. -/
def searchForces : List Char → Option (List Char)
  | [] => none
  | c :: cs =>
    if ("forces(".toList).isPrefixOf (c :: cs) then
      match parenGroupAux ((c :: cs).drop 7) with
      | some g => some g
      | none => searchForces cs
    else searchForces cs

/-- The declared contribution count of a forces file: the number of
whitespace-separated entries of the `forces(...)` header token, `0` when
there is no match (the `except` branch of `read_forces`). -/
def contribCount (content : String) : ℕ :=
  match searchForces content.toList with
  | some g => (pySplit (String.mk g)).length
  | none => 0

/-- One summed output column of `sum_contribs`: per row, the sum of the
input columns `idx + 3*k` for the contributions `k < n`.  Rows of the
parsed numeric table are modelled as total maps from column index to
value. -/
def summed_col (data : List (ℕ → ℚ)) (idx n : ℕ) : List ℚ :=
  data.map (fun row => ((List.range n).map (fun k => row (idx + 3 * k))).sum)

/-- Model of `read_forces` on a file's text and its parsed numeric
table: the contribution count, the three summed force columns
(`start_index = 1`) and the three summed moment columns
(`start_index = 1 + 3*n_contribs`). -/
def read_forces (content : String) (data : List (ℕ → ℚ)) :
    ℕ × List (List ℚ) × List (List ℚ) :=
  let n := contribCount content
  (n,
   (List.range 3).map (fun a => summed_col data (1 + a) n),
   (List.range 3).map (fun a => summed_col data (1 + 3 * n + a) n))

/-- Model of the `read_file_decorator` wrapper: a read-file call either
succeeds (`Except.ok`) or raises (`Except.error`); the wrapper catches
the exception, prints a diagnostic, and returns `None` (`none`). -/
def read_file_wrapper {α β : Type} (read_file : α → Except String β)
    (x : α) : Option β :=
  match read_file x with
  | Except.ok b => some b
  | Except.error _ => none

/-- The driver applies the wrapped reader to every discovered file of a
pattern in turn. -/
def process_batch {α β : Type} (read_file : α → Except String β)
    (files : List α) : List (Option β) :=
  files.map (read_file_wrapper read_file)

/-- Model of `__main__`: process every batch, then `sys.exit(0)`. -/
def driver_exit_code {α β : Type} (read_file : α → Except String β)
    (batches : List (List α)) : ℕ :=
  let _ := batches.map (process_batch read_file)
  0

/-- Python `zip(*rows)`: transpose, truncating every column to the
shortest row. -/
def pyZipT (rows : List (List String)) : List (List String) :=
  match rows with
  | [] => []
  | r0 :: rest =>
    let n := rest.foldl (fun m r => min m r.length) r0.length
    (List.range n).map (fun i => rows.map (fun r => r.getD i ""))

/-- One table entry of the Live Residual Monitor:
`float(value) if value.lower() != 'n/a' else np.nan`.  `none` signals the
`ValueError` that the surrounding `try` re-raises; `some none` is the
not-a-number sentinel (from `n/a` or a non-finite float literal);
`some (some q)` is a finite value. -/
def parseEntry (v : String) : Option (Option ℚ) :=
  if lowerStr v = "n/a" then some none
  else pyFloat v

/-- Model of `read_data` of `live_residuals.py`: keep the stripped
comment lines as the header and the whitespace-split non-comment lines
as data; require at least two header lines and take the last one (with
every `#` removed) as the field names; transpose and convert, turning a
conversion failure into `ValueError`. -/
def read_data (lines : List String) :
    Except String (List String × List (List (Option ℚ))) :=
  let header := (lines.filter (fun l => startsWithChar l '#')).map trimWs
  let data_lines := (lines.filter (fun l => !(startsWithChar l '#'))).map pySplit
  if 2 ≤ header.length ∧ startsWithChar ((header.getLast?).getD "") '#' = true then
    let field_names := pySplit (removeChar ((header.getLast?).getD "") '#')
    match (pyZipT data_lines).mapM (fun col => col.mapM parseEntry) with
    | some cols => Except.ok (field_names, cols)
    | none => Except.error "Il file contiene valori non convertibili."
  else Except.error "Header con i nomi delle colonne non trovato."

/-- Claim C2: the Output Path Resolver keeps the parent directory name as
the timestep exactly when it parses as a Python float and uses the
literal `"0"` otherwise; the output file name is the stem, then `_` plus
the sanitized suffix (with `/`, `\`, spaces removed) when a non-empty
suffix is given, then `_` plus the timestep exactly when the timestep is
not `"0"`, then the fixed extension; the output is placed in the
grandparent directory. -/
theorem get_output_filepath_resolution (dirs : List String)
    (stem suffix : String) :
    ((pyFloat ((dirs.getLast?).getD "")).isSome = true →
      (get_output_filepath dirs stem suffix).timestep = (dirs.getLast?).getD "") ∧
    ((pyFloat ((dirs.getLast?).getD "")).isSome = false →
      (get_output_filepath dirs stem suffix).timestep = "0") ∧
    (get_output_filepath dirs stem suffix).outdirs = dirs.dropLast ∧
    (get_output_filepath dirs stem suffix).outfilename =
      (if (get_output_filepath dirs stem suffix).timestep ≠ "0" then
        (if suffix ≠ "" then stem ++ "_" ++ sanitize_suffix suffix else stem)
          ++ "_" ++ (get_output_filepath dirs stem suffix).timestep
       else
        (if suffix ≠ "" then stem ++ "_" ++ sanitize_suffix suffix else stem))
        ++ EXTENSION := by
  cases h : (pyFloat ((dirs.getLast?).getD "")).isSome <;>
    simp [get_output_filepath, h]

/-- Witness for C2 at the spec's example `root/case/kind/3.5/field.vtk`:
the parent directory name `3.5` parses as a float and is kept as the
timestep. -/
theorem get_output_filepath_resolution_witness :
    (get_output_filepath ["root", "case", "kind", "3.5"] "field" "").timestep
      = "3.5" :=
  (get_output_filepath_resolution ["root", "case", "kind", "3.5"] "field" "").1
    (by decide)

/-- Membership in the scanner's output, unfolded. -/
lemma mem_find_files {pattern : String} {fs : List (String × List String)}
    {exceptions : List String} {r f : String} :
    (r, f) ∈ find_files pattern fs exceptions ↔
      (∃ files, (r, files) ∈ fs ∧ f ∈ files) ∧
        pyPathMatch pattern f = true ∧
        ∀ exc ∈ exceptions, pyPathMatch exc f = false := by
  constructor
  · intro h
    rw [find_files, List.mem_flatMap] at h
    obtain ⟨a, ha, hm⟩ := h
    rw [List.mem_filterMap] at hm
    obtain ⟨x, hx, hif⟩ := hm
    by_cases hc : (pyPathMatch pattern x &&
        !(exceptions.any (fun exc => pyPathMatch exc x))) = true
    · rw [if_pos hc] at hif
      obtain ⟨h1, h2⟩ := Prod.mk.injEq _ _ _ _ ▸ Option.some.injEq _ _ ▸ hif
      subst h1; subst h2
      rw [Bool.and_eq_true, Bool.not_eq_true', List.any_eq_false] at hc
      exact ⟨⟨a.2, ha, hx⟩, hc.1, fun exc hexc => by simpa using hc.2 exc hexc⟩
    · rw [if_neg hc] at hif
      exact absurd hif (Option.noConfusion)
  · rintro ⟨⟨files, hfs, hf⟩, hmatch, hexc⟩
    rw [find_files, List.mem_flatMap]
    refine ⟨(r, files), hfs, ?_⟩
    rw [List.mem_filterMap]
    refine ⟨f, hf, ?_⟩
    have hc : (pyPathMatch pattern f &&
        !(exceptions.any (fun exc => pyPathMatch exc f))) = true := by
      rw [Bool.and_eq_true, Bool.not_eq_true', List.any_eq_false]
      exact ⟨hmatch, fun x hx => by simp [hexc x hx]⟩
    rw [if_pos hc]

/-- Claim C4: the Path Scanner yields a (directory, file) pair iff the
file occurs there in the walked tree, its name matches the pattern
case-insensitively, and it matches none of the exclusion patterns; in
particular zero matches just give the empty list. -/
theorem find_files_yield_iff (pattern : String)
    (fs : List (String × List String)) (exceptions : List String)
    (r f : String) :
    (r, f) ∈ find_files pattern fs exceptions ↔
      (∃ files, (r, files) ∈ fs ∧ f ∈ files) ∧
        pyPathMatch pattern f = true ∧
        ∀ exc ∈ exceptions, pyPathMatch exc f = false :=
  mem_find_files

/-- Witness for C4: a file matching both the pattern and an exclusion is
not yielded, on a concrete tree. -/
theorem find_files_yield_iff_witness :
    ("d", "a.vtk") ∈ find_files "*.VTK" [("d", ["a.vtk", "b.dat"])] ["b*"] ∧
      ("d", "b.dat") ∉ find_files "*.dat" [("d", ["a.vtk", "b.dat"])] ["b*"] := by
  constructor
  · exact (find_files_yield_iff "*.VTK" [("d", ["a.vtk", "b.dat"])] ["b*"]
      "d" "a.vtk").mpr
      ⟨⟨["a.vtk", "b.dat"], by decide, by decide⟩, by decide, by decide⟩
  · intro h
    have h2 := (find_files_yield_iff "*.dat" [("d", ["a.vtk", "b.dat"])] ["b*"]
      "d" "b.dat").mp h
    have h3 := h2.2.2 "b*" (by decide)
    have h4 : pyPathMatch "b*" "b.dat" = true := by decide
    rw [h3] at h4
    exact Bool.noConfusion h4

/-- Claim C9 (amended): matching looks only at the file's base name, so a
pattern whose normalized component list has two or more components (or an
absolute pattern) matches no file, and whether a file is yielded does not
depend on the directory it lies in. -/
theorem find_files_matches_name_only (pattern : String)
    (fs : List (String × List String)) (exceptions : List String) :
    (2 ≤ (patParts pattern).length →
      find_files pattern fs exceptions = []) ∧
    (startsWithChar pattern '/' = true →
      find_files pattern fs exceptions = []) ∧
    (∀ r r' f files files', (r, files) ∈ fs → f ∈ files →
      (r', files') ∈ fs → f ∈ files' →
      ((r, f) ∈ find_files pattern fs exceptions ↔
        (r', f) ∈ find_files pattern fs exceptions)) := by
  have hmulti : 2 ≤ (patParts pattern).length →
      ∀ f, pyPathMatch pattern f = false := by
    intro h2 f
    rw [pyPathMatch]
    by_cases habs : startsWithChar pattern '/' = true
    · rw [if_pos habs]
    · rw [if_neg habs]
      match hpp : patParts pattern with
      | [] => rfl
      | [p] => rw [hpp] at h2; exact absurd h2 (by simp)
      | p :: q :: rest => rfl
  refine ⟨?_, ?_, ?_⟩
  · intro h2
    rw [List.eq_nil_iff_forall_not_mem]
    rintro ⟨r, f⟩ hmem
    have := (mem_find_files.mp hmem).2.1
    rw [hmulti h2 f] at this
    exact Bool.noConfusion this
  · intro habs
    rw [List.eq_nil_iff_forall_not_mem]
    rintro ⟨r, f⟩ hmem
    have := (mem_find_files.mp hmem).2.1
    rw [pyPathMatch, if_pos habs] at this
    exact Bool.noConfusion this
  · intro r r' f files files' hfs hf hfs' hf'
    rw [mem_find_files, mem_find_files]
    constructor
    · rintro ⟨_, hrest⟩; exact ⟨⟨files', hfs', hf'⟩, hrest⟩
    · rintro ⟨_, hrest⟩; exact ⟨⟨files, hfs, hf⟩, hrest⟩

/-- Witness for C9 (amended), on concrete inputs: the two-component
pattern `a/b` yields nothing, and the same file name is yielded at two
different directories alike. -/
theorem find_files_matches_name_only_witness :
    find_files "a/b" [("d", ["a"])] [] = [] ∧
      (("d1", "a.vtk") ∈
          find_files "*.vtk" [("d1", ["a.vtk"]), ("d2", ["a.vtk"])] [] ↔
        ("d2", "a.vtk") ∈
          find_files "*.vtk" [("d1", ["a.vtk"]), ("d2", ["a.vtk"])] []) := by
  constructor
  · exact (find_files_matches_name_only "a/b" [("d", ["a"])] []).1 (by decide)
  · exact (find_files_matches_name_only "*.vtk"
      [("d1", ["a.vtk"]), ("d2", ["a.vtk"])] []).2.2 "d1" "d2" "a.vtk"
      ["a.vtk"] ["a.vtk"] (by decide) (by decide) (by decide) (by decide)

/-- Claim C9 as stated is false: the pattern `./*.vtk` contains a path
separator, yet `PurePath` normalization drops the `.` component, so it
still matches plain file names and the scanner yields files for it. -/
theorem find_files_slash_pattern_cex :
    ("./*.vtk".toList.contains '/') = true ∧
      find_files "./*.vtk" [("d", ["a.vtk"])] [] = [("d", "a.vtk")] := by
  constructor
  · decide
  · decide

/-- Claim C5: the Unit Resolver tries, in order, an exact lookup, a
lookup on the contents of a parenthesized group when one exists, and a
lookup after stripping a known component suffix from the possibly
rewritten name; otherwise it returns `""`, and every non-empty result
has exactly the form `" [<unit>]"`. -/
theorem get_units_resolution_order (UNITS : List (String × String))
    (COMPS : List String) (name : String) :
    (∀ u, UNITS.lookup name = some u →
      get_units UNITS COMPS name = bracketUnit u) ∧
    (UNITS.lookup name = none →
      ∀ g, findParenGroup name.toList = some g →
        (∀ u, UNITS.lookup (String.mk g) = some u →
          get_units UNITS COMPS name = bracketUnit u) ∧
        (UNITS.lookup (String.mk g) = none →
          get_units UNITS COMPS name =
            (match UNITS.lookup (stripComponent COMPS (String.mk g)) with
             | some u => bracketUnit u
             | none => ""))) ∧
    (UNITS.lookup name = none → findParenGroup name.toList = none →
      (∀ u, UNITS.lookup name = some u →
        get_units UNITS COMPS name = bracketUnit u) ∧
      get_units UNITS COMPS name =
        (match UNITS.lookup (stripComponent COMPS name) with
         | some u => bracketUnit u
         | none => "")) ∧
    (get_units UNITS COMPS name = "" ∨
      ∃ u, get_units UNITS COMPS name = bracketUnit u) := by
  refine ⟨?_, ?_, ?_, ?_⟩
  · intro u hu
    rw [get_units, hu]
  · intro h0 g hg
    constructor
    · intro u hu
      rw [get_units, h0, hg]
      simp only [hu]
    · intro h1
      rw [get_units, h0, hg]
      simp only [h1]
  · intro h0 hg
    refine ⟨fun u hu => absurd hu (by rw [h0]; exact Option.noConfusion), ?_⟩
    rw [get_units, h0, hg]
    simp only [h0]
  · simp only [get_units]
    split
    · exact Or.inr ⟨_, rfl⟩
    · split
      · exact Or.inr ⟨_, rfl⟩
      · split
        · exact Or.inr ⟨_, rfl⟩
        · exact Or.inl rfl

/-- Witness for C5: with the table mapping `U` to `m/s` and the usual
component suffixes, `U_x` resolves through suffix stripping, and the
result carries the bracketed format. -/
theorem get_units_resolution_order_witness :
    get_units [("U", "m/s")] ["_x", "_y", "_z"] "U_x" = " [m/s]" := by
  have h := (get_units_resolution_order [("U", "m/s")] ["_x", "_y", "_z"]
    "U_x").2.2.1 (by decide) (by decide)
  exact h.2.trans (by decide)

lemma toList_mk (l : List Char) : (String.mk l).toList = l := rfl

lemma toList_append (a b : String) : (a ++ b).toList = a.toList ++ b.toList := by
  cases a; cases b; rfl

/-- Pieces produced by the whitespace splitter contain no whitespace. -/
lemma splitWsAux_no_ws : ∀ (cs cur : List Char),
    (∀ c ∈ cur, c.isWhitespace = false) →
    ∀ p ∈ splitWsAux cs cur, ∀ c ∈ p, c.isWhitespace = false := by
  intro cs
  induction cs with
  | nil =>
    intro cur hcur p hp
    rw [splitWsAux] at hp
    by_cases h : cur = []
    · rw [if_pos h] at hp; exact absurd hp (List.not_mem_nil p)
    · rw [if_neg h] at hp
      rcases List.mem_singleton.mp hp with rfl
      intro c hc
      exact hcur c (List.mem_reverse.mp hc)
  | cons x xs ih =>
    intro cur hcur p hp
    rw [splitWsAux] at hp
    by_cases hws : x.isWhitespace
    · rw [if_pos hws] at hp
      by_cases h : cur = []
      · rw [if_pos h] at hp
        exact ih [] (by intro c hc; exact absurd hc (List.not_mem_nil c)) p hp
      · rw [if_neg h] at hp
        rcases List.mem_cons.mp hp with rfl | hp'
        · intro c hc; exact hcur c (List.mem_reverse.mp hc)
        · exact ih [] (by intro c hc; exact absurd hc (List.not_mem_nil c)) p hp'
    · rw [if_neg hws] at hp
      refine ih (x :: cur) ?_ p hp
      intro c hc
      rcases List.mem_cons.mp hc with rfl | hc'
      · exact Bool.eq_false_iff.mpr hws
      · exact hcur c hc'

/-- Tokens of `str.split()` contain no whitespace. -/
lemma pySplit_no_ws (s : String) : ∀ t ∈ pySplit s, noWs t := by
  intro t ht
  rw [pySplit, List.mem_map] at ht
  obtain ⟨p, hp, rfl⟩ := ht
  intro c hc
  exact splitWsAux_no_ws s.toList []
    (by intro c hc; exact absurd hc (List.not_mem_nil c)) p hp c hc

/-- The merge loop only outputs good labels when started from good ones. -/
lemma mergeUnitsRev_good : ∀ (toks acc : List String) (L : List String),
    mergeUnitsRev acc toks = Except.ok L →
    (∀ a ∈ acc, goodLabel a) → ∀ a ∈ L, goodLabel a := by
  intro toks
  induction toks with
  | nil =>
    intro acc L hok hacc a ha
    rw [mergeUnitsRev] at hok
    obtain rfl := (Except.ok.injEq _ _).mp hok.symm
    exact hacc a (List.mem_reverse.mp ha)
  | cons t ts ih =>
    intro acc L hok hacc a ha
    simp only [mergeUnitsRev] at hok
    by_cases hu : isUnitToken t
    · rw [if_pos hu] at hok
      match acc, hacc with
      | [], _ => exact absurd hok (by intro h; exact Except.noConfusion h)
      | b :: bs, hacc =>
        refine ih ((b ++ " " ++ t) :: bs) L hok ?_ a ha
        intro x hx
        rcases List.mem_cons.mp hx with rfl | hx'
        · right
          rw [toList_append, toList_append]
          exact List.mem_append.mpr (Or.inl (List.mem_append.mpr (Or.inr (by decide))))
        · exact hacc x (List.mem_cons_of_mem b hx')
    · rw [if_neg hu] at hok
      refine ih (t :: acc) L hok ?_ a ha
      intro x hx
      rcases List.mem_cons.mp hx with rfl | hx'
      · exact Or.inl (Bool.eq_false_iff.mpr hu)
      · exact hacc x hx'

/-- A segment witness inside the accumulator survives the merge loop. -/
lemma mergeUnitsRev_seg : ∀ (toks acc : List String) (L : List String)
    (s : List Char),
    mergeUnitsRev acc toks = Except.ok L →
    (∃ a ∈ acc, containsSeg s a.toList) →
    ∃ lab ∈ L, containsSeg s lab.toList := by
  intro toks
  induction toks with
  | nil =>
    intro acc L s hok hseg
    rw [mergeUnitsRev] at hok
    obtain rfl := (Except.ok.injEq _ _).mp hok.symm
    obtain ⟨a, ha, hs⟩ := hseg
    exact ⟨a, List.mem_reverse.mpr ha, hs⟩
  | cons t ts ih =>
    intro acc L s hok hseg
    simp only [mergeUnitsRev] at hok
    by_cases hu : isUnitToken t
    · rw [if_pos hu] at hok
      match acc, hseg with
      | [], hseg => exact absurd hok (by intro h; exact Except.noConfusion h)
      | b :: bs, hseg =>
        obtain ⟨a, ha, p, q, hpq⟩ := hseg
        rcases List.mem_cons.mp ha with rfl | ha'
        · refine ih ((a ++ " " ++ t) :: bs) L s hok
            ⟨a ++ " " ++ t, List.mem_cons_self _ _, p, q ++ (' ' :: t.toList), ?_⟩
          rw [toList_append, toList_append, hpq]
          simp [List.append_assoc]
        · exact ih ((b ++ " " ++ t) :: bs) L s hok
            ⟨a, List.mem_cons_of_mem _ ha', p, q, hpq⟩
    · rw [if_neg hu] at hok
      obtain ⟨a, ha, hs⟩ := hseg
      exact ih (t :: acc) L s hok ⟨a, List.mem_cons_of_mem _ ha, hs⟩

/-- Every unit token encountered by a successful merge loop ends up as a
`" " ++ token` segment of some output label. -/
lemma mergeUnitsRev_unit_mem : ∀ (toks acc : List String) (L : List String)
    (t : String),
    mergeUnitsRev acc toks = Except.ok L → t ∈ toks → isUnitToken t = true →
    ∃ lab ∈ L, containsSeg (' ' :: t.toList) lab.toList := by
  intro toks
  induction toks with
  | nil => intro acc L t _ ht; exact absurd ht (List.not_mem_nil t)
  | cons t' ts ih =>
    intro acc L t hok ht hu
    simp only [mergeUnitsRev] at hok
    rcases List.mem_cons.mp ht with rfl | ht'
    · rw [if_pos hu] at hok
      match acc, hok with
      | [], hok => exact absurd hok (by intro h; exact Except.noConfusion h)
      | b :: bs, hok =>
        refine mergeUnitsRev_seg ts ((b ++ " " ++ t) :: bs) L (' ' :: t.toList)
          hok ⟨b ++ " " ++ t, List.mem_cons_self _ _, b.toList, [], ?_⟩
        rw [toList_append, toList_append]
        simp
    · by_cases hu' : isUnitToken t'
      · rw [if_pos hu'] at hok
        match acc, hok with
        | [], hok => exact absurd hok (by intro h; exact Except.noConfusion h)
        | b :: bs, hok => exact ih ((b ++ " " ++ t') :: bs) L t hok ht' hu
      · rw [if_neg hu'] at hok
        exact ih (t' :: acc) L t hok ht' hu

/-- Claim C3 (amended): when the label line's token sequence does not make
the merge loop fail (i.e. whenever `read_labels` returns), every token
matching the bracketed-unit pattern is appended after a space to a
preceding label and never becomes a standalone label; the spec's example
label line gives `["col1", "col2 [unit2]"]`; and with no valid comment
line the result is the empty list. -/
theorem read_labels_merges_units (lines : List String) :
    (lastCommentLine lines = none → read_labels lines = Except.ok []) ∧
    (∀ L l, read_labels lines = Except.ok L → lastCommentLine lines = some l →
      ∀ t ∈ labelTokens l, isUnitToken t = true →
        t ∉ L ∧ ∃ lab ∈ L, containsSeg (' ' :: t.toList) lab.toList) ∧
    read_labels ["#A #B", "# col1 col2 [unit2]"] =
      Except.ok ["col1", "col2 [unit2]"] := by
  refine ⟨?_, ?_, ?_⟩
  · intro h
    simp only [read_labels, h]
  · intro L l hok hl t ht hu
    simp only [read_labels, hl] at hok
    have hnws : noWs t := by
      rw [labelTokens] at ht
      exact pySplit_no_ws _ t ht
    refine ⟨?_, mergeUnitsRev_unit_mem (labelTokens l) [] L t hok ht hu⟩
    intro hmem
    have hgood := mergeUnitsRev_good (labelTokens l) [] L hok
      (by intro a ha; exact absurd ha (List.not_mem_nil a)) t hmem
    rcases hgood with hg | hg
    · rw [hu] at hg; exact Bool.noConfusion hg
    · exact absurd (hnws ' ' hg) (by decide)
  · rfl

/-- Witness for C3 (amended) on the spec's example line: the unit token
is not a standalone label and sits, after a space, inside the second
label. -/
theorem read_labels_merges_units_witness :
    "[unit2]" ∉ ["col1", "col2 [unit2]"] ∧
      ∃ lab ∈ ["col1", "col2 [unit2]"],
        containsSeg (' ' :: "[unit2]".toList) lab.toList :=
  (read_labels_merges_units ["#A #B", "# col1 col2 [unit2]"]).2.1
    ["col1", "col2 [unit2]"] "# col1 col2 [unit2]" rfl rfl "[unit2]"
    (by decide) rfl

/-- Claim C3 as stated is false: on the file whose only label line is
`# [u]`, `read_labels` raises `IndexError` (modelled `Except.error ()`)
instead of returning a label list. -/
theorem read_labels_unit_first_cex :
    read_labels ["# [u]"] = Except.error () := rfl

/-- Claim C8: whenever the last leading comment line's first token after
`#` matches the bracketed-unit pattern, `read_labels` appends to the
last element of a still-empty label list and raises `IndexError`
(modelled `Except.error ()`): the unit-merge branch is not total. -/
theorem read_labels_unit_first_raises (lines : List String) (l t : String)
    (ts : List String) (hl : lastCommentLine lines = some l)
    (ht : labelTokens l = t :: ts) (hu : isUnitToken t = true) :
    read_labels lines = Except.error () := by
  simp [read_labels, hl, ht, mergeUnitsRev, hu]

/-- Witness for C8 at the label line `# [m] x`. -/
theorem read_labels_unit_first_raises_witness :
    read_labels ["# [m] x"] = Except.error () :=
  read_labels_unit_first_raises ["# [m] x"] "# [m] x" "[m]" ["x"] rfl rfl rfl

lemma finRange3 : List.finRange 3 = [0, 1, 2] := by decide

/-- The last filtered element over `[0,1,2]`, by cases on the predicate. -/
lemma getLast?_filter3 (p : Fin 3 → Bool) :
    (([0, 1, 2] : List (Fin 3)).filter p).getLast? =
      if p 2 = true then some 2
      else if p 1 = true then some 1
      else if p 0 = true then some 0
      else none := by
  cases h0 : p 0 <;> cases h1 : p 1 <;> cases h2 : p 2 <;>
    simp [List.filter_cons, List.filter_nil, h0, h1, h2]

lemma masked_delta_self (bounds : Fin 6 → ℚ) (n : Fin 3) :
    masked_delta bounds n n = ⊤ := by simp [masked_delta]

lemma masked_delta_ne (bounds : Fin 6 → ℚ) {i n : Fin 3} (h : i ≠ n) :
    masked_delta bounds n i = ((delta_bounds bounds i : ℚ) : WithTop ℚ) := by
  simp [masked_delta, h]

/-- `view_up_index` as an if-chain preferring the later index. -/
lemma view_up_index_eq (bounds : Fin 6 → ℚ) (n : Fin 3) :
    view_up_index bounds n =
      (if masked_delta bounds n 2 =
          min (masked_delta bounds n 0)
            (min (masked_delta bounds n 1) (masked_delta bounds n 2)) then (2 : Fin 3)
       else if masked_delta bounds n 1 =
          min (masked_delta bounds n 0)
            (min (masked_delta bounds n 1) (masked_delta bounds n 2)) then 1
       else if masked_delta bounds n 0 =
          min (masked_delta bounds n 0)
            (min (masked_delta bounds n 1) (masked_delta bounds n 2)) then 0
       else n) := by
  simp only [view_up_index, finRange3, getLast?_filter3, decide_eq_true_eq]
  split_ifs <;> rfl

lemma vui_0 (bounds : Fin 6 → ℚ) :
    view_up_index bounds 0 =
      if delta_bounds bounds 2 ≤ delta_bounds bounds 1 then 2 else 1 := by
  have e0 := masked_delta_self bounds 0
  have e1 := masked_delta_ne bounds (show (1 : Fin 3) ≠ 0 by decide)
  have e2 := masked_delta_ne bounds (show (2 : Fin 3) ≠ 0 by decide)
  rw [view_up_index_eq, e0, e1, e2, min_eq_right le_top]
  rcases le_or_lt (delta_bounds bounds 2) (delta_bounds bounds 1) with h | h
  · rw [min_eq_right (WithTop.coe_le_coe.mpr h), if_pos rfl, if_pos h]
  · have hne : ((delta_bounds bounds 2 : ℚ) : WithTop ℚ) ≠
        ((delta_bounds bounds 1 : ℚ) : WithTop ℚ) :=
      fun hc => absurd (WithTop.coe_inj.mp hc) h.ne'
    rw [min_eq_left (WithTop.coe_le_coe.mpr h.le), if_neg hne, if_pos rfl,
      if_neg (not_le.mpr h)]

lemma vui_1 (bounds : Fin 6 → ℚ) :
    view_up_index bounds 1 =
      if delta_bounds bounds 2 ≤ delta_bounds bounds 0 then 2 else 0 := by
  have e0 := masked_delta_ne bounds (show (0 : Fin 3) ≠ 1 by decide)
  have e1 := masked_delta_self bounds 1
  have e2 := masked_delta_ne bounds (show (2 : Fin 3) ≠ 1 by decide)
  rw [view_up_index_eq, e0, e1, e2, min_eq_right le_top]
  rcases le_or_lt (delta_bounds bounds 2) (delta_bounds bounds 0) with h | h
  · rw [min_eq_right (WithTop.coe_le_coe.mpr h), if_pos rfl, if_pos h]
  · have hne : ((delta_bounds bounds 2 : ℚ) : WithTop ℚ) ≠
        ((delta_bounds bounds 0 : ℚ) : WithTop ℚ) :=
      fun hc => absurd (WithTop.coe_inj.mp hc) h.ne'
    rw [min_eq_left (WithTop.coe_le_coe.mpr h.le), if_neg hne,
      if_neg (WithTop.top_ne_coe), if_pos rfl, if_neg (not_le.mpr h)]

lemma vui_2 (bounds : Fin 6 → ℚ) :
    view_up_index bounds 2 =
      if delta_bounds bounds 1 ≤ delta_bounds bounds 0 then 1 else 0 := by
  have e0 := masked_delta_ne bounds (show (0 : Fin 3) ≠ 2 by decide)
  have e1 := masked_delta_ne bounds (show (1 : Fin 3) ≠ 2 by decide)
  have e2 := masked_delta_self bounds 2
  rw [view_up_index_eq, e0, e1, e2, min_eq_left le_top]
  rcases le_or_lt (delta_bounds bounds 1) (delta_bounds bounds 0) with h | h
  · rw [min_eq_right (WithTop.coe_le_coe.mpr h), if_neg (WithTop.top_ne_coe),
      if_pos rfl, if_pos h]
  · have hne : ((delta_bounds bounds 1 : ℚ) : WithTop ℚ) ≠
        ((delta_bounds bounds 0 : ℚ) : WithTop ℚ) :=
      fun hc => absurd (WithTop.coe_inj.mp hc) h.ne'
    rw [min_eq_left (WithTop.coe_le_coe.mpr h.le), if_neg (WithTop.top_ne_coe),
      if_neg hne, if_pos rfl, if_neg (not_le.mpr h)]

/-- The chosen view-up axis is a non-normal axis of minimal masked
extent, and the latest such axis on ties. -/
lemma view_up_index_spec (bounds : Fin 6 → ℚ) (n : Fin 3) :
    view_up_index bounds n ≠ n ∧
    (∀ i, i ≠ n → delta_bounds bounds (view_up_index bounds n) ≤
      delta_bounds bounds i) ∧
    (∀ i, i ≠ n → delta_bounds bounds i =
      delta_bounds bounds (view_up_index bounds n) → i ≤ view_up_index bounds n) := by
  have key : ∀ m : Fin 3, m = 0 ∨ m = 1 ∨ m = 2 := by decide
  rcases key n with rfl | rfl | rfl
  · rw [vui_0 bounds]
    rcases le_or_lt (delta_bounds bounds 2) (delta_bounds bounds 1) with h | h
    · rw [if_pos h]
      refine ⟨by decide, ?_, ?_⟩
      · intro i hi
        fin_cases i
        · exact absurd rfl hi
        · exact h
        · exact le_refl _
      · intro i hi _
        fin_cases i
        · exact absurd rfl hi
        · decide
        · exact le_refl _
    · rw [if_neg (not_le.mpr h)]
      refine ⟨by decide, ?_, ?_⟩
      · intro i hi
        fin_cases i
        · exact absurd rfl hi
        · exact le_refl _
        · exact h.le
      · intro i hi heq
        fin_cases i
        · exact absurd rfl hi
        · exact le_refl _
        · exact absurd heq h.ne'
  · rw [vui_1 bounds]
    rcases le_or_lt (delta_bounds bounds 2) (delta_bounds bounds 0) with h | h
    · rw [if_pos h]
      refine ⟨by decide, ?_, ?_⟩
      · intro i hi
        fin_cases i
        · exact h
        · exact absurd rfl hi
        · exact le_refl _
      · intro i hi _
        fin_cases i
        · decide
        · exact absurd rfl hi
        · exact le_refl _
    · rw [if_neg (not_le.mpr h)]
      refine ⟨by decide, ?_, ?_⟩
      · intro i hi
        fin_cases i
        · exact le_refl _
        · exact absurd rfl hi
        · exact h.le
      · intro i hi heq
        fin_cases i
        · exact le_refl _
        · exact absurd rfl hi
        · exact absurd heq h.ne'
  · rw [vui_2 bounds]
    rcases le_or_lt (delta_bounds bounds 1) (delta_bounds bounds 0) with h | h
    · rw [if_pos h]
      refine ⟨by decide, ?_, ?_⟩
      · intro i hi
        fin_cases i
        · exact h
        · exact le_refl _
        · exact absurd rfl hi
      · intro i hi _
        fin_cases i
        · decide
        · exact le_refl _
        · exact absurd rfl hi
    · rw [if_neg (not_le.mpr h)]
      refine ⟨by decide, ?_, ?_⟩
      · intro i hi
        fin_cases i
        · exact le_refl _
        · exact h.le
        · exact absurd rfl hi
      · intro i hi heq
        fin_cases i
        · exact le_refl _
        · exact absurd heq h.ne'
        · exact absurd rfl hi

/-- Claim C6: camera-orientation inference falls back to a plain reset
unless exactly one axis has extent below `1e-16`; for a unique normal
axis it sets position to the mesh center plus the unit normal, focal
point to the center, and view-up to the unit vector of the non-normal
axis of smallest remaining extent, choosing the later axis on ties, with
negative sign exactly on the third axis. -/
theorem adjust_camera_orientation (bounds : Fin 6 → ℚ) (center : Fin 3 → ℚ) :
    ((normal_indices bounds).length ≠ 1 → adjust_camera bounds center = none) ∧
    (∀ n, normal_indices bounds = [n] →
      ∃ j : Fin 3, j ≠ n ∧
        (∀ i, i ≠ n → delta_bounds bounds j ≤ delta_bounds bounds i) ∧
        (∀ i, i ≠ n → delta_bounds bounds i = delta_bounds bounds j → i ≤ j) ∧
        adjust_camera bounds center = some
          { position := fun i => center i + (if i = n then 1 else 0)
            focal_point := center
            view_up := fun i => if i = j then (if j = 2 then -1 else 1) else 0 }) := by
  constructor
  · intro hlen
    rcases h : normal_indices bounds with _ | ⟨a, _ | ⟨b, l⟩⟩
    · rw [adjust_camera, h]; rfl
    · exact absurd (by rw [h]; rfl) hlen
    · rw [adjust_camera, h]; rfl
  · intro n h
    obtain ⟨hne, hmin, htie⟩ := view_up_index_spec bounds n
    exact ⟨view_up_index bounds n, hne, hmin, htie, by rw [adjust_camera, h]; rfl⟩

/-- Witness for C6 on a concrete slab (x-extent `0`, y-extent `2`,
z-extent `1`): the normal is the x axis and the view-up vector is the
negative z axis. -/
theorem adjust_camera_orientation_witness :
    ∃ j : Fin 3, j ≠ (0 : Fin 3) ∧
      (∀ i, i ≠ (0 : Fin 3) →
        delta_bounds (fun k => if k.val = 3 then 2 else if k.val = 5 then 1 else 0) j ≤
        delta_bounds (fun k => if k.val = 3 then 2 else if k.val = 5 then 1 else 0) i) ∧
      (∀ i, i ≠ (0 : Fin 3) →
        delta_bounds (fun k => if k.val = 3 then 2 else if k.val = 5 then 1 else 0) i =
        delta_bounds (fun k => if k.val = 3 then 2 else if k.val = 5 then 1 else 0) j →
        i ≤ j) ∧
      adjust_camera (fun k => if k.val = 3 then 2 else if k.val = 5 then 1 else 0)
        (fun _ => 0) = some
        { position := fun i => (fun _ => (0 : ℚ)) i + (if i = (0 : Fin 3) then 1 else 0)
          focal_point := fun _ => 0
          view_up := fun i => if i = j then (if j = 2 then -1 else 1) else 0 } := by
  have d0 : delta_bounds
      (fun k => if k.val = 3 then 2 else if k.val = 5 then 1 else 0) 0 = 0 := by
    norm_num [delta_bounds, pyAbs]
  have d1 : delta_bounds
      (fun k => if k.val = 3 then 2 else if k.val = 5 then 1 else 0) 1 = 2 := by
    norm_num [delta_bounds, pyAbs]
  have d2 : delta_bounds
      (fun k => if k.val = 3 then 2 else if k.val = 5 then 1 else 0) 2 = 1 := by
    norm_num [delta_bounds, pyAbs]
  have hB : normal_indices
      (fun k => if k.val = 3 then 2 else if k.val = 5 then 1 else 0) = [0] := by
    rw [normal_indices, finRange3, List.filter_cons, List.filter_cons,
      List.filter_cons, List.filter_nil, d0, d1, d2]
    norm_num [THRESHOLD]
  exact (adjust_camera_orientation
    (fun k => if k.val = 3 then 2 else if k.val = 5 then 1 else 0) (fun _ => 0)).2
    0 hB

lemma list_sum_range (n : ℕ) (f : ℕ → ℚ) :
    ((List.range n).map f).sum = ∑ k in Finset.range n, f k := by
  induction n with
  | zero => simp
  | succ m ih => simp [List.range_succ, Finset.sum_range_succ, ih]

/-- Claim C1: the aggregator takes the contribution count from the
`forces(...)` header token (0 when absent, making every sum empty), and
for each axis component `a < 3` the summed force column at `a` sums the
input columns `1 + a + 3*k` and the summed moment column sums the input
columns `1 + 3*n + a + 3*k`, over the contributions `k < n`. -/
theorem read_forces_sums_contrib_blocks (content : String)
    (data : List (ℕ → ℚ)) :
    (searchForces content.toList = none → contribCount content = 0) ∧
    (∀ a : ℕ, a < 3 →
      ((read_forces content data).2.1.get? a =
        some (data.map (fun row =>
          ∑ k in Finset.range (contribCount content), row (1 + a + 3 * k)))) ∧
      ((read_forces content data).2.2.get? a =
        some (data.map (fun row =>
          ∑ k in Finset.range (contribCount content),
            row (1 + 3 * contribCount content + a + 3 * k))))) := by
  constructor
  · intro h
    rw [contribCount, h]
  · intro a ha
    constructor
    · rw [read_forces]
      rw [List.get?_map, List.get?_range ha, Option.map_some']
      rw [summed_col]
      congr 1
    · rw [read_forces]
      rw [List.get?_map, List.get?_range ha, Option.map_some']
      rw [summed_col]
      congr 1

/-- Witness for C1 on a header declaring two contributions: both column
formulas hold at axis component 0. -/
theorem read_forces_sums_contrib_blocks_witness :
    ((read_forces "# forces(pressure viscous)" [fun i => (i : ℚ)]).2.1.get? 0 =
      some (([fun i => (i : ℚ)] : List (ℕ → ℚ)).map (fun row =>
        ∑ k in Finset.range (contribCount "# forces(pressure viscous)"),
          row (1 + 0 + 3 * k)))) ∧
    ((read_forces "# forces(pressure viscous)" [fun i => (i : ℚ)]).2.2.get? 0 =
      some (([fun i => (i : ℚ)] : List (ℕ → ℚ)).map (fun row =>
        ∑ k in Finset.range (contribCount "# forces(pressure viscous)"),
          row (1 + 3 * contribCount "# forces(pressure viscous)" + 0 + 3 * k)))) :=
  (read_forces_sums_contrib_blocks "# forces(pressure viscous)"
    [fun i => (i : ℚ)]).2 0 (by decide)

/-- Claim C7: an exception in one file is caught at that file's boundary
(the wrapper turns it into `none`), every file of the batch is still
processed with a result depending only on that file, and the driver's
exit code is 0 no matter how many files failed. -/
theorem driver_isolates_file_errors {α β : Type}
    (read_file : α → Except String β) (files : List α) :
    driver_exit_code read_file [files] = 0 ∧
    (∀ i : ℕ, (process_batch read_file files).get? i =
      (files.get? i).map (read_file_wrapper read_file)) ∧
    (∀ x e, read_file x = Except.error e → read_file_wrapper read_file x = none) ∧
    (∀ x b, read_file x = Except.ok b → read_file_wrapper read_file x = some b) := by
  refine ⟨rfl, ?_, ?_, ?_⟩
  · intro i
    rw [process_batch, List.get?_map]
  · intro x e h
    rw [read_file_wrapper, h]
  · intro x b h
    rw [read_file_wrapper, h]

/-- Witness for C7 on the spec's three-file batch where the second file
is malformed: the failing file yields `none`, its neighbours yield their
results, and the exit code is 0. -/
theorem driver_isolates_file_errors_witness :
    driver_exit_code
      (fun n : ℕ => if n = 2 then Except.error "malformed" else Except.ok n)
      [[1, 2, 3]] = 0 ∧
    read_file_wrapper
      (fun n : ℕ => if n = 2 then Except.error "malformed" else Except.ok n)
      2 = none ∧
    read_file_wrapper
      (fun n : ℕ => if n = 2 then Except.error "malformed" else Except.ok n)
      3 = some 3 := by
  refine ⟨?_, ?_, ?_⟩
  · exact (driver_isolates_file_errors
      (fun n : ℕ => if n = 2 then Except.error "malformed" else Except.ok n)
      [1, 2, 3]).1
  · exact (driver_isolates_file_errors
      (fun n : ℕ => if n = 2 then Except.error "malformed" else Except.ok n)
      [1, 2, 3]).2.2.1 2 "malformed" rfl
  · exact (driver_isolates_file_errors
      (fun n : ℕ => if n = 2 then Except.error "malformed" else Except.ok n)
      [1, 2, 3]).2.2.2 3 3 rfl

/-- Claim C10: the reader raises `ValueError` whenever fewer than two
lines start with `#`, even if a single comment line holds valid labels;
it returns labels and numeric columns only when at least two such lines
exist, taking the last one (with `#` characters removed,
whitespace-split) as the label row. -/
theorem read_data_requires_two_comment_lines (lines : List String) :
    ((lines.filter (fun l => startsWithChar l '#')).length < 2 →
      read_data lines =
        Except.error "Header con i nomi delle colonne non trovato.") ∧
    (∀ names cols, read_data lines = Except.ok (names, cols) →
      2 ≤ (lines.filter (fun l => startsWithChar l '#')).length ∧
      names = pySplit (removeChar
        (((((lines.filter (fun l => startsWithChar l '#')).map trimWs).getLast?).getD ""))
        '#')) := by
  constructor
  · intro hlt
    rw [read_data, if_neg]
    intro hcond
    rw [List.length_map] at hcond
    exact absurd hcond.1 (not_le.mpr hlt)
  · intro names cols hok
    rw [read_data] at hok
    by_cases hcond : 2 ≤ ((lines.filter (fun l => startsWithChar l '#')).map trimWs).length ∧
        startsWithChar (((lines.filter (fun l => startsWithChar l '#')).map trimWs).getLast?.getD "") '#' = true
    · rw [if_pos hcond] at hok
      refine ⟨by rw [List.length_map] at hcond; exact hcond.1, ?_⟩
      rcases hzip : (pyZipT ((lines.filter
          (fun l => !(startsWithChar l '#'))).map pySplit)).mapM
          (fun col => col.mapM parseEntry) with _ | cols'
      · rw [hzip] at hok
        exact absurd hok (by intro h; exact Except.noConfusion h)
      · rw [hzip] at hok
        obtain ⟨h1, _⟩ := Prod.mk.injEq _ _ _ _ ▸ (Except.ok.injEq _ _).mp hok.symm
        exact h1
    · rw [if_neg hcond] at hok
      exact absurd hok (by intro h; exact Except.noConfusion h)

/-- Witness for C10: a file with one comment line holding valid labels
still raises, and a two-comment-line file returns with the last comment
line as labels. -/
theorem read_data_requires_two_comment_lines_witness :
    read_data ["# Time Ux", "1 n/a"] =
      Except.error "Header con i nomi delle colonne non trovato." ∧
    ∀ names cols, read_data ["# a", "# Time Ux", "nan n/a"] =
        Except.ok (names, cols) → names = ["Time", "Ux"] := by
  constructor
  · exact (read_data_requires_two_comment_lines ["# Time Ux", "1 n/a"]).1
      (by decide)
  · intro names cols hok
    have h := (read_data_requires_two_comment_lines
      ["# a", "# Time Ux", "nan n/a"]).2 names cols hok
    exact h.2.trans (by decide)
